import Mathlib

/-!
Verification of the SCO EdgeWise measurement core (sco_edgewise.py).

The development shallowly embeds the measurement core of the addon:
the unit converter (convert_distance / get_unit_suffix), the contiguity
analyzer (TapeMeasureOperator.is_contiguous), the measurement engine and
selection classifier (TapeMeasureOperator.execute, AngleMeasureOperator,
DistanceFromCursorOperator).

Modelling conventions, stated once here:

* Geometry is over the real numbers; the Python source computes with
  IEEE floats, which the specification treats as real arithmetic within
  floating tolerance.
* Host (Blender) collaborator values are taken as inputs: the list of
  selected world-space vertex positions, the list of selected edges,
  the mesh-select-mode toggle triple, the unit-system setting, the 3D
  cursor position, and whether the active object is a mesh.
* Vertices and edges carry a numeric identity (the id field) standing
  for Python object identity: the source compares bmesh vertices and
  edges by identity, never by coordinate value.
* The stored result string is modelled by the structured Display type
  that records exactly the fields interpolated into the source's
  f-strings; 2-decimal float rendering itself is outside the embedding.
* A Blender operator run is modelled as a function from the persistent
  properties and the collaborator inputs to the updated properties and
  an outcome: OpStatus.finished for return FINISHED, and
  OpStatus.cancelled msg for self.report of ERROR msg followed by
  return CANCELLED.  An uncaught Python exception escaping execute is
  modelled by OpStatus.crashed.
* The while loop of is_contiguous is written structurally with an
  extra fuel argument used only to express the recursion; the fuel
  chosen in is_contiguous exceeds the worst-case number of loop
  iterations (proved below), so it never runs out on the calls the
  program makes.
-/

/-- A world-space 3D coordinate (mathutils Vector of length 3). -/
@[ext]
structure Point3 where
  x : ℝ
  y : ℝ
  z : ℝ

/-- Componentwise vector difference, as in mathutils v - w. -/
def vsub (p q : Point3) : Point3 :=
  ⟨p.x - q.x, p.y - q.y, p.z - q.z⟩

/-- Euclidean dot product of two 3-vectors. -/
def dot (v w : Point3) : ℝ :=
  v.x * w.x + v.y * w.y + v.z * w.z

/-- mathutils Vector.length: the Euclidean norm. -/
noncomputable def vlen (v : Point3) : ℝ :=
  Real.sqrt (dot v v)

/-- A bmesh vertex: an identity (Python object identity) plus its
coordinate.  The source compares vertices by identity only. -/
structure BVert where
  id : ℕ
  co : Point3

/-- A bmesh edge: an identity plus its two endpoint vertices, in the
order exposed by edge.verts (index 0 and index 1). -/
structure BEdge where
  id : ℕ
  v0 : BVert
  v1 : BVert

/-- bmesh edge.calc_length(): the Euclidean distance between the two
endpoint coordinates. -/
noncomputable def calc_length (e : BEdge) : ℝ :=
  vlen (vsub e.v1.co e.v0.co)

/-- The unit_settings.system values the source distinguishes. -/
inductive UnitSystem where
  | metric
  | imperial
deriving DecidableEq

/-- convert_distance (sco_edgewise.py lines 18-21): multiply by the
feet-per-meter constant under IMPERIAL, identity otherwise. -/
noncomputable def convert_distance (distance : ℝ) (unit_settings : UnitSystem) : ℝ :=
  if unit_settings = UnitSystem.imperial then
    distance * 3.28084
  else
    distance

/-- get_unit_suffix (sco_edgewise.py lines 24-27). -/
def get_unit_suffix (unit_settings : UnitSystem) : String :=
  if unit_settings = UnitSystem.imperial then
    "ft"
  else
    "m"

/-- The axis enum of DistanceFromCursorOperator. -/
inductive Axis where
  | X
  | Y
  | Z
deriving DecidableEq

/-- Coordinate lookup v[axis_index] with axis_index from the
dictionary at sco_edgewise.py line 201. -/
def coordOf (p : Point3) : Axis → ℝ
  | Axis.X => p.x
  | Axis.Y => p.y
  | Axis.Z => p.z

/-- The structured content of the stored result string
(TapeMeasureProperties.result).  Each constructor records the fields of
the corresponding f-string of the source:
length v u for the f-string of v formatted to 2 decimals followed by
unit u; anglePair a b for the inside/outside angle f-string; axisDist
ax v u for the axis-prefixed distance f-string. -/
inductive Display where
  | empty
  | length (value : ℝ) (unit : String)
  | anglePair (inside outside : ℝ)
  | axisDist (axis : Axis) (value : ℝ) (unit : String)

/-- TapeMeasureProperties (sco_edgewise.py lines 13-15): the persistent
scene properties. -/
structure TapeMeasureProperties where
  result : Display
  last_mode : String

/-- Outcome of one operator execute call: FINISHED, or CANCELLED after
reporting an error message, or an uncaught exception (crashed). -/
inductive OpStatus where
  | finished
  | cancelled (msg : String)
  | crashed
deriving DecidableEq

namespace TapeMeasureOperator

/-- The adjacency test of is_contiguous (sco_edgewise.py line 50):
any(v in current.verts for v in e.verts), vertex identity comparison. -/
def sharesVert (current e : BEdge) : Bool :=
  (e.v0.id == current.v0.id || e.v0.id == current.v1.id) ||
    (e.v1.id == current.v0.id || e.v1.id == current.v1.id)

/-- The while loop of is_contiguous (sco_edgewise.py lines 41-52).
visited is the set of visited edges, represented as the list of their
ids (an id is appended only when absent, so the list stays nodup and
its length is the set's size).  The top of the Python stack
(stack.pop() pops the last element, stack.extend appends) is the head
of the Lean list, so extend becomes connected.reverse ++ rest.
The fuel argument only makes the recursion structural; is_contiguous
passes more fuel than the loop can consume (lemmas below). -/
def contigLoop (edges : List BEdge) : ℕ → List ℕ → List BEdge → List ℕ
  | 0, visited, _ => visited
  | _ + 1, visited, [] => visited
  | fuel + 1, visited, current :: rest =>
    if current.id ∈ visited then
      contigLoop edges fuel visited rest
    else
      let visited' := current.id :: visited
      let connected := edges.filter fun e =>
        decide (e.id ∉ visited') && sharesVert current e
      contigLoop edges fuel visited' (connected.reverse ++ rest)

/-- TapeMeasureOperator.is_contiguous (sco_edgewise.py lines 36-55).
Start the traversal from edges[0] and compare the visited count with
the edge count.  On an empty list, edges[0] raises IndexError: that
partiality is rendered by the none result. -/
def is_contiguous (edges : List BEdge) : Option Bool :=
  match edges with
  | [] => none
  | e :: _ =>
    some ((contigLoop edges ((edges.length + 1) * (edges.length + 1)) [] [e]).length
      == edges.length)

/-- Proof apparatus: the number of edges whose id is not yet visited;
the traversal strictly shrinks this measure each time it pops an
unvisited edge. -/
def unvisitedCount (edges : List BEdge) (visited : List ℕ) : ℕ :=
  edges.countP fun e => decide (e.id ∉ visited)

/-- The selection-mode classifier (sco_edgewise.py line 75):
"VERTEX" if select_mode[0] else "EDGE" if select_mode[1] else "NONE",
over the (vertex, edge, face) toggle triple of
tool_settings.mesh_select_mode. -/
def current_mode (select_mode : Bool × Bool × Bool) : String :=
  if select_mode.1 then "VERTEX" else if select_mode.2.1 then "EDGE" else "NONE"

/-- The mode-change reset (sco_edgewise.py lines 78-80): when the
remembered last_mode differs from the current mode, store the current
mode and clear the result. -/
def reset_on_mode_change (props : TapeMeasureProperties) (cm : String) :
    TapeMeasureProperties :=
  if props.last_mode ≠ cm then { result := Display.empty, last_mode := cm } else props

/-- The collaborator state TapeMeasureOperator.execute reads:
the select-mode toggles, the flattened world-space selected vertex
positions (get_selected_vertices), whether context.object exists and is
a mesh, the selected edges of its bmesh, and the unit settings. -/
structure TapeContext where
  select_mode : Bool × Bool × Bool
  selected_verts : List Point3
  activeIsMesh : Bool
  selected_edges : List BEdge
  unit_settings : UnitSystem

/-- TapeMeasureOperator.execute (sco_edgewise.py lines 69-129).
The two Python elif branches guarded by len(selected_edges) > 1 are
merged into one guard with the is_contiguous result deciding between
them, preserving the short-circuit of the Python conjunction
len(selected_edges) > 1 and self.is_contiguous(selected_edges):
is_contiguous is only consulted when the length exceeds 1. -/
noncomputable def execute (props : TapeMeasureProperties) (ctx : TapeContext) :
    TapeMeasureProperties × OpStatus :=
  let cm := current_mode ctx.select_mode
  let props1 := reset_on_mode_change props cm
  if cm = "VERTEX" then
    match ctx.selected_verts with
    | [v1, v2] =>
      let distance := vlen (vsub v1 v2)
      let distance := convert_distance distance ctx.unit_settings
      let unit := get_unit_suffix ctx.unit_settings
      ({ props1 with result := Display.length distance unit }, OpStatus.finished)
    | _ =>
      (props1, OpStatus.cancelled "Invalid selection: Select exactly two vertices")
  else if cm = "EDGE" then
    if ctx.activeIsMesh = false then
      (props1, OpStatus.cancelled "Active object is not a mesh")
    else
      match ctx.selected_edges with
      | [edge] =>
        let distance := calc_length edge
        let distance := convert_distance distance ctx.unit_settings
        let unit := get_unit_suffix ctx.unit_settings
        ({ props1 with result := Display.length distance unit }, OpStatus.finished)
      | es =>
        if 1 < es.length then
          match is_contiguous es with
          | none => (props1, OpStatus.crashed)
          | some true =>
            let total_length := (es.map calc_length).sum
            let total_length := convert_distance total_length ctx.unit_settings
            let unit := get_unit_suffix ctx.unit_settings
            ({ props1 with result := Display.length total_length unit }, OpStatus.finished)
          | some false =>
            (props1, OpStatus.cancelled "Invalid selection: Edges must form a contiguous group")
        else
          (props1,
            OpStatus.cancelled "Invalid selection: Select a single edge or contiguous edge group")
  else
    (props1, OpStatus.cancelled "Invalid selection mode: Use Vertex or Edge mode")

end TapeMeasureOperator

/-- The shared-endpoint adjacency step relation restricted to a given
edge list: one traversal step of is_contiguous can move between a and b
exactly when both are selected edges and they share a vertex
identity. -/
def stepRel (edges : List BEdge) (a b : BEdge) : Prop :=
  a ∈ edges ∧ b ∈ edges ∧ TapeMeasureOperator.sharesVert a b = true

/-- The edges form a single connected component under shared-endpoint
adjacency: every selected edge is reachable from every other through
chains of vertex-sharing selected edges. -/
def EdgeConnected (edges : List BEdge) : Prop :=
  ∀ a ∈ edges, ∀ b ∈ edges, Relation.ReflTransGen (stepRel edges) a b

/-- math.degrees: radians to degrees. -/
noncomputable def degrees (r : ℝ) : ℝ :=
  r * 180 / Real.pi

/-- mathutils Vector.angle(other) with no fallback argument: the
unsigned angle (radians) via the inverse cosine of the normalized dot
product; with a zero-length operand the angle cannot be calculated and
the call raises ValueError, rendered here as none.  (Real.arccos is
already clamped outside the interval from -1 to 1, matching the
library's saacos clamping.) -/
noncomputable def vangle (v w : Point3) : Option ℝ :=
  open Classical in
  if vlen v = 0 ∨ vlen w = 0 then none
  else some (Real.arccos (dot v w / (vlen v * vlen w)))

namespace AngleMeasureOperator

/-- The direction vector of an edge as calculate_angle forms it
(sco_edgewise.py lines 140-141): verts[1].co - verts[0].co. -/
def edge_vec (e : BEdge) : Point3 :=
  vsub e.v1.co e.v0.co

/-- AngleMeasureOperator.calculate_angle (sco_edgewise.py lines
138-145).  none propagates the ValueError of Vector.angle on a
zero-length edge vector. -/
noncomputable def calculate_angle (edge1 edge2 : BEdge) : Option (ℝ × ℝ) :=
  let vec1 := edge_vec edge1
  let vec2 := edge_vec edge2
  match vangle vec1 vec2 with
  | none => none
  | some angle =>
    let angle_in := degrees angle
    let angle_out := 360 - angle_in
    some (angle_in, angle_out)

/-- The collaborator state AngleMeasureOperator.execute reads.  The
select-mode toggles are carried although the operator never consults
them: angle measurement is independent of the global selection mode. -/
structure AngleContext where
  select_mode : Bool × Bool × Bool
  activeIsMesh : Bool
  selected_edges : List BEdge

/-- AngleMeasureOperator.execute (sco_edgewise.py lines 147-165).
A ValueError escaping calculate_angle is uncaught there, hence
OpStatus.crashed. -/
noncomputable def execute (props : TapeMeasureProperties) (ctx : AngleContext) :
    TapeMeasureProperties × OpStatus :=
  if ctx.activeIsMesh = false then
    (props, OpStatus.cancelled "Active object is not a mesh")
  else
    match ctx.selected_edges with
    | [edge1, edge2] =>
      match calculate_angle edge1 edge2 with
      | none => (props, OpStatus.crashed)
      | some p =>
        ({ props with result := Display.anglePair p.1 p.2 }, OpStatus.finished)
    | _ =>
      (props, OpStatus.cancelled "Invalid selection: Select exactly two edges")

end AngleMeasureOperator

namespace DistanceFromCursorOperator

/-- The collaborator state DistanceFromCursorOperator.execute reads:
the operator's axis property, the flattened selected vertex positions,
the 3D cursor location and the unit settings. -/
structure CursorContext where
  axis : Axis
  selected_verts : List Point3
  cursor_location : Point3
  unit_settings : UnitSystem

/-- DistanceFromCursorOperator.execute (sco_edgewise.py lines 184-207). -/
noncomputable def execute (props : TapeMeasureProperties) (ctx : CursorContext) :
    TapeMeasureProperties × OpStatus :=
  match ctx.selected_verts with
  | [selected_vert] =>
    let distance := coordOf selected_vert ctx.axis - coordOf ctx.cursor_location ctx.axis
    let distance := convert_distance |distance| ctx.unit_settings
    let unit := get_unit_suffix ctx.unit_settings
    ({ props with result := Display.axisDist ctx.axis distance unit }, OpStatus.finished)
  | _ =>
    (props, OpStatus.cancelled "Invalid selection: Select exactly one vertex")

end DistanceFromCursorOperator

-- Concrete collaborator inputs used by the witness theorems below.

def SP0 : Point3 := ⟨0, 0, 0⟩

def SP1 : Point3 := ⟨1, 0, 0⟩

def SP2 : Point3 := ⟨1, 1, 0⟩

/-- A vertex at x = 5 used for the axis-distance witness. -/
def WP5 : Point3 := ⟨5, 0, 0⟩

/-- Edge from SP0 to SP1 (vertex ids 0 and 1). -/
def SE1 : BEdge := ⟨0, ⟨0, SP0⟩, ⟨1, SP1⟩⟩

/-- Edge from SP1 to SP2, sharing vertex id 1 with SE1. -/
def SE2 : BEdge := ⟨1, ⟨1, SP1⟩, ⟨2, SP2⟩⟩

/-- Edge sharing no vertex identity with SE1. -/
def SE3 : BEdge := ⟨2, ⟨3, SP2⟩, ⟨4, SP0⟩⟩

/-- A zero-length edge: two distinct vertices with coincident
coordinates. -/
def WD0 : BEdge := ⟨5, ⟨10, SP0⟩, ⟨11, SP0⟩⟩

def WPropsE : TapeMeasureProperties := ⟨Display.empty, "EDGE"⟩

def WPropsV : TapeMeasureProperties := ⟨Display.empty, "VERTEX"⟩

/-- Edge mode, mesh active, the two contiguous edges selected. -/
def WCtxEdgePair : TapeMeasureOperator.TapeContext :=
  ⟨(false, true, false), [], true, [SE1, SE2], UnitSystem.metric⟩

/-- Vertex mode, two selected vertices. -/
def WCtxVertexPair : TapeMeasureOperator.TapeContext :=
  ⟨(true, false, false), [SP0, SP1], true, [], UnitSystem.metric⟩

/-- Vertex mode, nothing selected. -/
def WCtxVertexNone : TapeMeasureOperator.TapeContext :=
  ⟨(true, false, false), [], true, [], UnitSystem.metric⟩

/-- Face-only select mode. -/
def WCtxFace : TapeMeasureOperator.TapeContext :=
  ⟨(false, false, true), [], true, [], UnitSystem.metric⟩

/-- Angle context over two non-degenerate edges. -/
def WCtxAngle : AngleMeasureOperator.AngleContext :=
  ⟨(false, true, false), true, [SE1, SE2]⟩

/-- Angle context whose first edge has zero length. -/
def WCtxAngleDegenerate : AngleMeasureOperator.AngleContext :=
  ⟨(false, true, false), true, [WD0, SE1]⟩

/-- Cursor context: vertex at x = 5, cursor at the origin, X axis. -/
def WCtxCursor : DistanceFromCursorOperator.CursorContext :=
  ⟨Axis.X, [WP5], SP0, UnitSystem.metric⟩

namespace TapeMeasureOperator

/-- Unfolding of the vertex-identity sharing test. -/
theorem sharesVert_eq_true_iff (a b : BEdge) :
    sharesVert a b = true ↔
      b.v0.id = a.v0.id ∨ b.v0.id = a.v1.id ∨ b.v1.id = a.v0.id ∨ b.v1.id = a.v1.id := by
  simp [sharesVert, or_assoc]

/-- Sharing a vertex identity is symmetric. -/
theorem sharesVert_symm (a b : BEdge) : sharesVert a b = sharesVert b a := by
  rw [Bool.eq_iff_iff, sharesVert_eq_true_iff, sharesVert_eq_true_iff]
  constructor <;> intro h <;> rcases h with h | h | h | h <;> simp [h]

/-- Visiting a selected, not-yet-visited edge strictly decreases the
count of unvisited edges. -/
theorem unvisitedCount_lt (edges : List BEdge) (visited : List ℕ) (c : BEdge)
    (hc : c ∈ edges) (hnv : c.id ∉ visited) :
    unvisitedCount edges (c.id :: visited) + 1 ≤ unvisitedCount edges visited := by
  unfold unvisitedCount
  induction edges with
  | nil => cases hc
  | cons a t ih =>
    have hle : List.countP (fun e => decide (e.id ∉ c.id :: visited)) t ≤
        List.countP (fun e => decide (e.id ∉ visited)) t := by
      apply List.countP_mono_left
      intro x _ hx
      simp only [decide_eq_true_eq] at hx ⊢
      intro hmem
      exact hx (List.mem_cons_of_mem _ hmem)
    simp only [List.countP_cons]
    by_cases hid : a.id = c.id
    · have hq : decide (a.id ∉ c.id :: visited) = false := by
        rw [decide_eq_false_iff_not]
        simp [hid]
      have hp : decide (a.id ∉ visited) = true := by
        rw [decide_eq_true_eq, hid]
        exact hnv
      rw [hq, hp, if_neg Bool.false_ne_true, if_pos rfl]
      omega
    · have hqp : decide (a.id ∉ c.id :: visited) = decide (a.id ∉ visited) := by
        rw [decide_eq_decide]
        simp [List.mem_cons, hid]
      have hct : c ∈ t := by
        rcases List.mem_cons.mp hc with heq | h
        · exact absurd (congrArg BEdge.id heq).symm hid
        · exact h
      have hlt := ih hct
      rw [hqp]
      cases hb : decide (a.id ∉ visited)
      · omega
      · omega

/-- The traversal never removes anything from the visited set. -/
theorem contigLoop_visited_subset (edges : List BEdge) :
    ∀ (fuel : ℕ) (visited : List ℕ) (stack : List BEdge),
      visited ⊆ contigLoop edges fuel visited stack := by
  intro fuel
  induction fuel with
  | zero =>
    intro visited stack
    simp [contigLoop]
  | succ n ih =>
    intro visited stack
    match stack with
    | [] => simp [contigLoop]
    | current :: rest =>
      by_cases h : current.id ∈ visited
      · simpa [contigLoop, h] using ih visited rest
      · simp only [contigLoop, h, if_neg, not_false_iff, if_false]
        intro a ha
        exact ih _ _ (List.mem_cons_of_mem _ ha)

/-- The traversal preserves distinctness of the visited ids: an id is
appended only when absent, mirroring Python set insertion. -/
theorem contigLoop_nodup (edges : List BEdge) :
    ∀ (fuel : ℕ) (visited : List ℕ) (stack : List BEdge),
      visited.Nodup → (contigLoop edges fuel visited stack).Nodup := by
  intro fuel
  induction fuel with
  | zero =>
    intro visited stack h
    simpa [contigLoop] using h
  | succ n ih =>
    intro visited stack h
    match stack with
    | [] => simpa [contigLoop] using h
    | current :: rest =>
      by_cases hmem : current.id ∈ visited
      · simpa [contigLoop, hmem] using ih visited rest h
      · simp only [contigLoop, hmem, if_neg, not_false_iff, if_false]
        exact ih _ _ (List.nodup_cons.mpr ⟨hmem, h⟩)

end TapeMeasureOperator

namespace TapeMeasureOperator

/-- Soundness of the traversal: every id it ever visits belongs to a
selected edge satisfying any property R that holds on the initial stack
and is preserved by shared-vertex steps into the edge list. -/
theorem contigLoop_sound (edges : List BEdge) (R : BEdge → Prop)
    (hR : ∀ a b : BEdge, R a → b ∈ edges → sharesVert a b = true → R b) :
    ∀ (fuel : ℕ) (visited : List ℕ) (stack : List BEdge),
      (∀ e ∈ stack, e ∈ edges ∧ R e) →
      (∀ i ∈ visited, ∃ e ∈ edges, e.id = i ∧ R e) →
      ∀ i ∈ contigLoop edges fuel visited stack, ∃ e ∈ edges, e.id = i ∧ R e := by
  intro fuel
  induction fuel with
  | zero =>
    intro visited stack hstack hvis i hi
    exact hvis i (by simpa [contigLoop] using hi)
  | succ n ih =>
    intro visited stack hstack hvis i hi
    cases stack with
    | nil => exact hvis i (by simpa [contigLoop] using hi)
    | cons current rest =>
      by_cases h : current.id ∈ visited
      · refine ih visited rest (fun e he => hstack e (List.mem_cons_of_mem _ he)) hvis i ?_
        simpa [contigLoop, h] using hi
      · have hi' : i ∈ contigLoop edges n (current.id :: visited)
            ((edges.filter fun e =>
              decide (e.id ∉ current.id :: visited) && sharesVert current e).reverse ++ rest) := by
          have hrw : contigLoop edges (n + 1) visited (current :: rest) =
              contigLoop edges n (current.id :: visited)
                ((edges.filter fun e =>
                  decide (e.id ∉ current.id :: visited) && sharesVert current e).reverse
                  ++ rest) := by
            simp only [contigLoop]
            rw [if_neg h]
          rwa [hrw] at hi
        refine ih (current.id :: visited) _ ?_ ?_ i hi'
        · intro e he
          rcases List.mem_append.mp he with hcon | hrest
          · have hfil := List.mem_filter.mp (List.mem_reverse.mp hcon)
            have hsh : sharesVert current e = true := by
              have h2 := hfil.2
              simp only [Bool.and_eq_true] at h2
              exact h2.2
            exact ⟨hfil.1, hR current e (hstack current (List.mem_cons_self _ _)).2 hfil.1 hsh⟩
          · exact hstack e (List.mem_cons_of_mem _ hrest)
        · intro j hj
          rcases List.mem_cons.mp hj with hj | hj
          · exact ⟨current, (hstack current (List.mem_cons_self _ _)).1, hj.symm,
              (hstack current (List.mem_cons_self _ _)).2⟩
          · exact hvis j hj

/-- Completeness of the traversal, given enough fuel: every id on the
stack ends up visited, and the final visited set is closed under
shared-vertex adjacency within the edge list (relative to the stated
stack/visited invariant). -/
theorem contigLoop_complete (edges : List BEdge) (hn : (edges.map BEdge.id).Nodup) :
    ∀ (fuel : ℕ) (visited : List ℕ) (stack : List BEdge),
      (edges.length + 1) * unvisitedCount edges visited + stack.length ≤ fuel →
      (∀ e ∈ stack, e ∈ edges) →
      (∀ a ∈ edges, a.id ∈ visited → ∀ b ∈ edges, sharesVert a b = true →
        b.id ∈ visited ∨ b.id ∈ stack.map BEdge.id) →
      (∀ e ∈ stack, e.id ∈ contigLoop edges fuel visited stack) ∧
      (∀ a ∈ edges, a.id ∈ contigLoop edges fuel visited stack →
        ∀ b ∈ edges, sharesVert a b = true → b.id ∈ contigLoop edges fuel visited stack) := by
  intro fuel
  induction fuel with
  | zero =>
    intro visited stack hfuel hstack hinv
    have hlen : stack.length = 0 :=
      Nat.le_zero.mp (le_trans (Nat.le_add_left _ _) hfuel)
    have hempty : stack = [] := List.length_eq_zero.mp hlen
    subst hempty
    refine ⟨fun e he => absurd he (List.not_mem_nil e), ?_⟩
    intro a ha haid b hb hsh
    simp only [contigLoop] at haid ⊢
    rcases hinv a ha haid b hb hsh with hres | hres
    · exact hres
    · simp at hres
  | succ n ih =>
    intro visited stack hfuel hstack hinv
    cases stack with
    | nil =>
      refine ⟨fun e he => absurd he (List.not_mem_nil e), ?_⟩
      intro a ha haid b hb hsh
      simp only [contigLoop] at haid ⊢
      rcases hinv a ha haid b hb hsh with hres | hres
      · exact hres
      · simp at hres
    | cons current rest =>
      by_cases h : current.id ∈ visited
      · have hrw : contigLoop edges (n + 1) visited (current :: rest) =
            contigLoop edges n visited rest := by
          simp only [contigLoop]
          rw [if_pos h]
        have hfuel' : (edges.length + 1) * unvisitedCount edges visited + rest.length ≤ n := by
          have := hfuel
          simp only [List.length_cons, ← Nat.add_assoc] at this
          exact Nat.le_of_succ_le_succ this
        have hinv' : ∀ a ∈ edges, a.id ∈ visited → ∀ b ∈ edges, sharesVert a b = true →
            b.id ∈ visited ∨ b.id ∈ rest.map BEdge.id := by
          intro a ha haid b hb hsh
          rcases hinv a ha haid b hb hsh with hres | hres
          · exact Or.inl hres
          · have hres2 : b.id = current.id ∨ ∃ x ∈ rest, x.id = b.id := by
              simpa using hres
            rcases hres2 with hres' | ⟨x, hx, hxid⟩
            · exact Or.inl (hres' ▸ h)
            · exact Or.inr (List.mem_map.mpr ⟨x, hx, hxid⟩)
        have hrec := ih visited rest hfuel'
          (fun e he => hstack e (List.mem_cons_of_mem _ he)) hinv'
        rw [hrw]
        refine ⟨?_, hrec.2⟩
        intro e he
        rcases List.mem_cons.mp he with heq | he'
        · exact heq ▸ contigLoop_visited_subset edges n visited rest h
        · exact hrec.1 e he'
      · have hcur : current ∈ edges := hstack current (List.mem_cons_self _ _)
        have hrw : contigLoop edges (n + 1) visited (current :: rest) =
            contigLoop edges n (current.id :: visited)
              ((edges.filter fun e =>
                decide (e.id ∉ current.id :: visited) && sharesVert current e).reverse
                ++ rest) := by
          simp only [contigLoop]
          rw [if_neg h]
        have hdec := unvisitedCount_lt edges visited current hcur h
        have hconn : (edges.filter fun e =>
            decide (e.id ∉ current.id :: visited) && sharesVert current e).length ≤
              edges.length := List.length_filter_le _ _
        have hfuel' : (edges.length + 1) * unvisitedCount edges (current.id :: visited) +
            ((edges.filter fun e =>
              decide (e.id ∉ current.id :: visited) && sharesVert current e).reverse
              ++ rest).length ≤ n := by
          have hmul : (edges.length + 1) * unvisitedCount edges (current.id :: visited) +
              (edges.length + 1) ≤
                (edges.length + 1) * unvisitedCount edges visited := by
            calc (edges.length + 1) * unvisitedCount edges (current.id :: visited) +
                (edges.length + 1)
                = (edges.length + 1) * (unvisitedCount edges (current.id :: visited) + 1) := by
                  ring
              _ ≤ (edges.length + 1) * unvisitedCount edges visited :=
                  Nat.mul_le_mul_left _ hdec
          have hfuel2 : (edges.length + 1) * unvisitedCount edges visited +
              rest.length + 1 ≤ n + 1 := by
            simpa [List.length_cons, ← Nat.add_assoc] using hfuel
          simp only [List.length_append, List.length_reverse]
          linarith
        have hstack' : ∀ e ∈ (edges.filter fun e =>
            decide (e.id ∉ current.id :: visited) && sharesVert current e).reverse
            ++ rest, e ∈ edges := by
          intro e he
          rcases List.mem_append.mp he with hcon | hrest
          · exact (List.mem_filter.mp (List.mem_reverse.mp hcon)).1
          · exact hstack e (List.mem_cons_of_mem _ hrest)
        have hinv' : ∀ a ∈ edges, a.id ∈ current.id :: visited → ∀ b ∈ edges,
            sharesVert a b = true →
            b.id ∈ current.id :: visited ∨
              b.id ∈ ((edges.filter fun e =>
                decide (e.id ∉ current.id :: visited) && sharesVert current e).reverse
                ++ rest).map BEdge.id := by
          intro a ha haid b hb hsh
          rcases List.mem_cons.mp haid with haid' | haid'
          · -- a is the edge just visited: a = current by id-injectivity
            have haeq : a = current :=
              List.inj_on_of_nodup_map hn ha hcur haid'
            by_cases hbv : b.id ∈ current.id :: visited
            · exact Or.inl hbv
            · refine Or.inr ?_
              have hbfil : b ∈ edges.filter fun e =>
                  decide (e.id ∉ current.id :: visited) && sharesVert current e := by
                refine List.mem_filter.mpr ⟨hb, ?_⟩
                simp only [Bool.and_eq_true]
                refine ⟨decide_eq_true hbv, ?_⟩
                rw [← haeq]
                exact hsh
              refine List.mem_map.mpr ⟨b, ?_, rfl⟩
              exact List.mem_append.mpr (Or.inl (List.mem_reverse.mpr hbfil))
          · rcases hinv a ha haid' b hb hsh with hres | hres
            · exact Or.inl (List.mem_cons_of_mem _ hres)
            · have hres2 : b.id = current.id ∨ ∃ x ∈ rest, x.id = b.id := by
                simpa using hres
              rcases hres2 with hres' | ⟨x, hx, hxid⟩
              · exact Or.inl (List.mem_cons.mpr (Or.inl hres'))
              · refine Or.inr (List.mem_map.mpr ?_)
                exact ⟨x, List.mem_append.mpr (Or.inr hx), hxid⟩
        have hrec := ih (current.id :: visited) _ hfuel' hstack' hinv'
        rw [hrw]
        refine ⟨?_, hrec.2⟩
        intro e he
        rcases List.mem_cons.mp he with heq | he'
        · subst heq
          exact contigLoop_visited_subset edges n (e.id :: visited) _
            (List.mem_cons_self _ _)
        · refine hrec.1 e ?_
          exact List.mem_append.mpr (Or.inr he')

end TapeMeasureOperator

namespace TapeMeasureOperator

/-- The step relation of the traversal is symmetric. -/
theorem stepRel_symm (edges : List BEdge) : Symmetric (stepRel edges) := by
  intro a b hab
  exact ⟨hab.2.1, hab.1, by rw [sharesVert_symm]; exact hab.2.2⟩

/-- Characterization of the contiguity analyzer: for a non-empty edge
list whose ids are distinct (they stand for distinct Python objects),
is_contiguous answers true exactly when the edges form one connected
component of the shared-endpoint adjacency graph. -/
theorem is_contiguous_iff_connected (edges : List BEdge) (hne : edges ≠ [])
    (hn : (edges.map BEdge.id).Nodup) :
    is_contiguous edges = some true ↔ EdgeConnected edges := by
  cases edges with
  | nil => exact absurd rfl hne
  | cons e0 tl =>
    set V := contigLoop (e0 :: tl) (((e0 :: tl).length + 1) * ((e0 :: tl).length + 1)) [] [e0]
      with hV
    have hform : is_contiguous (e0 :: tl) = some (V.length == (e0 :: tl).length) := rfl
    have hnodupV : V.Nodup := contigLoop_nodup _ _ _ _ List.nodup_nil
    have hsound : ∀ i ∈ V, ∃ e ∈ e0 :: tl, e.id = i ∧
        (e ∈ e0 :: tl ∧ Relation.ReflTransGen (stepRel (e0 :: tl)) e0 e) := by
      apply contigLoop_sound _
        (fun e => e ∈ e0 :: tl ∧ Relation.ReflTransGen (stepRel (e0 :: tl)) e0 e)
      · intro a b hRa hb hsh
        exact ⟨hb, hRa.2.tail ⟨hRa.1, hb, hsh⟩⟩
      · intro e he
        have he' : e = e0 := by simpa using he
        subst he'
        exact ⟨List.mem_cons_self _ _, List.mem_cons_self _ _, Relation.ReflTransGen.refl⟩
      · intro i hi
        simp at hi
    have hsubF : V.toFinset ⊆ ((e0 :: tl).map BEdge.id).toFinset := by
      intro i hi
      obtain ⟨e, he, heid, _⟩ := hsound i (List.mem_toFinset.mp hi)
      exact List.mem_toFinset.mpr (List.mem_map.mpr ⟨e, he, heid⟩)
    have hcardV : V.toFinset.card = V.length := List.toFinset_card_of_nodup hnodupV
    have hcardI : ((e0 :: tl).map BEdge.id).toFinset.card = (e0 :: tl).length := by
      rw [List.toFinset_card_of_nodup hn, List.length_map]
    constructor
    · intro htrue
      have hlen : V.length = (e0 :: tl).length := by
        rw [hform] at htrue
        simpa using htrue
      have heqF : V.toFinset = ((e0 :: tl).map BEdge.id).toFinset :=
        Finset.eq_of_subset_of_card_le hsubF (by rw [hcardV, hcardI, hlen])
      have hreach : ∀ b ∈ e0 :: tl, Relation.ReflTransGen (stepRel (e0 :: tl)) e0 b := by
        intro b hb
        have hbid : b.id ∈ V := by
          have h1 : b.id ∈ ((e0 :: tl).map BEdge.id).toFinset :=
            List.mem_toFinset.mpr (List.mem_map.mpr ⟨b, hb, rfl⟩)
          rw [← heqF] at h1
          exact List.mem_toFinset.mp h1
        obtain ⟨e, he, heid, _, hr⟩ := hsound b.id hbid
        have heb : e = b := List.inj_on_of_nodup_map hn he hb heid
        exact heb ▸ hr
      intro a ha b hb
      exact ((Relation.ReflTransGen.symmetric (stepRel_symm (e0 :: tl))) (hreach a ha)).trans
        (hreach b hb)
    · intro hconn
      have hΦinit : ((e0 :: tl).length + 1) * unvisitedCount (e0 :: tl) [] +
          ([e0] : List BEdge).length ≤
            ((e0 :: tl).length + 1) * ((e0 :: tl).length + 1) := by
        have huc : unvisitedCount (e0 :: tl) [] = (e0 :: tl).length := by
          unfold unvisitedCount
          apply List.countP_eq_length.mpr
          intro a _
          simp
        rw [huc]
        have h2 : ((e0 :: tl).length + 1) * ((e0 :: tl).length + 1) =
            ((e0 :: tl).length + 1) * (e0 :: tl).length + ((e0 :: tl).length + 1) :=
          Nat.mul_succ _ _
        rw [h2]
        exact Nat.add_le_add_left (Nat.succ_le_succ (Nat.zero_le _)) _
      have hcomp := contigLoop_complete (e0 :: tl) hn _ [] [e0] hΦinit
        (by
          intro e he
          have he' : e = e0 := by simpa using he
          subst he'
          exact List.mem_cons_self _ _)
        (by
          intro a _ hvis
          simp at hvis)
      have he0 : e0.id ∈ V := hcomp.1 e0 (List.mem_cons_self _ _)
      have hmemV : ∀ b ∈ e0 :: tl, b.id ∈ V := by
        intro b hb
        have hr := hconn e0 (List.mem_cons_self _ _) b hb
        clear hb
        induction hr with
        | refl => exact he0
        | tail hab hbc ihab => exact hcomp.2 _ hbc.1 ihab _ hbc.2.1 hbc.2.2
      have hsupF : ((e0 :: tl).map BEdge.id).toFinset ⊆ V.toFinset := by
        intro i hi
        obtain ⟨b, hb, hbid⟩ := List.mem_map.mp (List.mem_toFinset.mp hi)
        exact List.mem_toFinset.mpr (hbid ▸ hmemV b hb)
      have heqF : V.toFinset = ((e0 :: tl).map BEdge.id).toFinset :=
        subset_antisymm hsubF hsupF
      have hlen : V.length = (e0 :: tl).length := by
        rw [← hcardV, heqF, hcardI]
      rw [hform, hlen]
      simp

end TapeMeasureOperator

namespace TapeMeasureOperator

/-- A single-edge list is always contiguous. -/
theorem is_contiguous_single (e : BEdge) : is_contiguous [e] = some true := by
  refine (is_contiguous_iff_connected [e] (by simp) (by simp)).mpr ?_
  intro a ha b hb
  have ha' : a = e := by simpa using ha
  have hb' : b = e := by simpa using hb
  rw [ha', hb']

/-- A chain in which each consecutive pair of edges shares a vertex is
contiguous. -/
theorem is_contiguous_chain (edges : List BEdge) (hne : edges ≠ [])
    (hn : (edges.map BEdge.id).Nodup)
    (hchain : ∀ (i : ℕ) (h1 : i + 1 < edges.length),
      sharesVert (edges.get ⟨i, Nat.lt_of_succ_lt h1⟩) (edges.get ⟨i + 1, h1⟩) = true) :
    is_contiguous edges = some true := by
  refine (is_contiguous_iff_connected edges hne hn).mpr ?_
  have h0 : 0 < edges.length := List.length_pos.mpr hne
  have hreach : ∀ (j : ℕ) (hj : j < edges.length),
      Relation.ReflTransGen (stepRel edges) (edges.get ⟨0, h0⟩) (edges.get ⟨j, hj⟩) := by
    intro j
    induction j with
    | zero => intro hj; exact Relation.ReflTransGen.refl
    | succ i ih =>
      intro hj
      have hi : i < edges.length := Nat.lt_of_succ_lt hj
      refine (ih hi).tail ?_
      exact ⟨List.get_mem _ _ _, List.get_mem _ _ _, hchain i hj⟩
  intro a ha b hb
  obtain ⟨ia, hia⟩ := List.mem_iff_get.mp ha
  obtain ⟨ib, hib⟩ := List.mem_iff_get.mp hb
  have ra : Relation.ReflTransGen (stepRel edges) (edges.get ⟨0, h0⟩) a := by
    rw [← hia]
    exact hreach ia.val ia.isLt
  have rb : Relation.ReflTransGen (stepRel edges) (edges.get ⟨0, h0⟩) b := by
    rw [← hib]
    exact hreach ib.val ib.isLt
  exact ((Relation.ReflTransGen.symmetric (stepRel_symm edges)) ra).trans rb

/-- Two distinct edges sharing no vertex are not contiguous. -/
theorem is_contiguous_disjoint_pair (e1 e2 : BEdge) (hid : e1.id ≠ e2.id)
    (hsh : sharesVert e1 e2 = false) :
    is_contiguous [e1, e2] = some false := by
  have hnot : ¬ EdgeConnected [e1, e2] := by
    intro hconn
    have h12 := hconn e1 (by simp) e2 (by simp)
    have hfix : ∀ x, Relation.ReflTransGen (stepRel [e1, e2]) e1 x → x = e1 := by
      intro x hx
      induction hx with
      | refl => rfl
      | tail hab hbc ih =>
        rename_i bmid cend
        rcases hbc with ⟨hb1, hb2, hb3⟩
        rcases List.mem_cons.mp hb2 with hc | hc
        · exact hc
        · have hc2 : cend = e2 := by simpa using hc
          subst hc2
          rw [ih] at hb3
          simp [hsh] at hb3
    have h21 := hfix e2 h12
    exact hid (congrArg BEdge.id h21).symm
  have hiff := is_contiguous_iff_connected [e1, e2] (by simp) (by simp [hid])
  rcases hopt : is_contiguous [e1, e2] with _ | b
  · simp [is_contiguous] at hopt
  · cases b
    · rfl
    · exact absurd (hiff.mp hopt) hnot

end TapeMeasureOperator

/-- The squared length of a difference vector is symmetric. -/
theorem dot_vsub_comm (a b : Point3) :
    dot (vsub a b) (vsub a b) = dot (vsub b a) (vsub b a) := by
  simp only [dot, vsub]
  ring

/-- The dot square is nonnegative. -/
theorem dot_self_nonneg (v : Point3) : 0 ≤ dot v v := by
  have hx := mul_self_nonneg v.x
  have hy := mul_self_nonneg v.y
  have hz := mul_self_nonneg v.z
  unfold dot
  linarith

/-- Distance between two points is symmetric. -/
theorem vlen_vsub_symm (a b : Point3) : vlen (vsub a b) = vlen (vsub b a) := by
  unfold vlen
  rw [dot_vsub_comm]

/-- A vector has length zero exactly when it is the zero vector. -/
theorem vlen_eq_zero_iff (v : Point3) : vlen v = 0 ↔ v.x = 0 ∧ v.y = 0 ∧ v.z = 0 := by
  unfold vlen
  rw [Real.sqrt_eq_zero (dot_self_nonneg v)]
  unfold dot
  constructor
  · intro h
    refine ⟨?_, ?_, ?_⟩ <;>
      nlinarith [mul_self_nonneg v.x, mul_self_nonneg v.y, mul_self_nonneg v.z]
  · rintro ⟨h1, h2, h3⟩
    rw [h1, h2, h3]
    ring

/-- Distance between two points vanishes exactly when they coincide. -/
theorem vlen_vsub_eq_zero_iff (a b : Point3) : vlen (vsub a b) = 0 ↔ a = b := by
  rw [vlen_eq_zero_iff]
  simp only [vsub]
  constructor
  · rintro ⟨h1, h2, h3⟩
    ext
    · linarith
    · linarith
    · linarith
  · rintro rfl
    exact ⟨sub_self _, sub_self _, sub_self _⟩

/-- The host angle function is symmetric in its operands. -/
theorem vangle_symm (v w : Point3) : vangle v w = vangle w v := by
  unfold vangle
  have hd : dot v w = dot w v := by
    unfold dot
    ring
  rw [hd, mul_comm (vlen v) (vlen w)]
  by_cases h : vlen v = 0 ∨ vlen w = 0
  · rw [if_pos h, if_pos (Or.symm h)]
  · rw [if_neg h, if_neg (fun hh => h (Or.symm hh))]

namespace AngleMeasureOperator

/-- calculate_angle is symmetric in the two edges. -/
theorem calculate_angle_symm (e1 e2 : BEdge) :
    calculate_angle e1 e2 = calculate_angle e2 e1 := by
  simp only [calculate_angle]
  rw [vangle_symm]

/-- On non-degenerate edges, calculate_angle returns the inside angle
together with its complement to 360 degrees. -/
theorem calculate_angle_eq_some (e1 e2 : BEdge)
    (h1 : vlen (edge_vec e1) ≠ 0) (h2 : vlen (edge_vec e2) ≠ 0) :
    calculate_angle e1 e2 =
      some (degrees (Real.arccos (dot (edge_vec e1) (edge_vec e2) /
          (vlen (edge_vec e1) * vlen (edge_vec e2)))),
        360 - degrees (Real.arccos (dot (edge_vec e1) (edge_vec e2) /
          (vlen (edge_vec e1) * vlen (edge_vec e2))))) := by
  simp only [calculate_angle, vangle]
  rw [if_neg (not_or.mpr ⟨h1, h2⟩)]

/-- On a degenerate edge pair the host angle call fails and
calculate_angle propagates the failure. -/
theorem calculate_angle_eq_none (e1 e2 : BEdge)
    (h : vlen (edge_vec e1) = 0 ∨ vlen (edge_vec e2) = 0) :
    calculate_angle e1 e2 = none := by
  simp only [calculate_angle, vangle]
  rw [if_pos h]

end AngleMeasureOperator

namespace TapeMeasureOperator

/-- Vertex mode, exactly two selected vertices: distance measured,
converted, stored. -/
theorem execute_vertex_pair (props : TapeMeasureProperties) (ctx : TapeContext)
    (hmode : current_mode ctx.select_mode = "VERTEX") (v1 v2 : Point3)
    (hv : ctx.selected_verts = [v1, v2]) :
    execute props ctx =
      ({ reset_on_mode_change props "VERTEX" with
          result := Display.length (convert_distance (vlen (vsub v1 v2)) ctx.unit_settings)
            (get_unit_suffix ctx.unit_settings) },
        OpStatus.finished) := by
  obtain ⟨sm, sv, mesh, se, us⟩ := ctx
  dsimp only at hmode hv ⊢
  subst hv
  simp [execute, hmode]

/-- Vertex mode, any other selected-vertex count: cancelled with the
two-vertices message, result untouched beyond the mode reset. -/
theorem execute_vertex_bad (props : TapeMeasureProperties) (ctx : TapeContext)
    (hmode : current_mode ctx.select_mode = "VERTEX")
    (hv : ctx.selected_verts.length ≠ 2) :
    execute props ctx =
      (reset_on_mode_change props "VERTEX",
        OpStatus.cancelled "Invalid selection: Select exactly two vertices") := by
  obtain ⟨sm, sv, mesh, se, us⟩ := ctx
  dsimp only at hmode hv ⊢
  rcases sv with _ | ⟨a, _ | ⟨b, _ | ⟨c, t⟩⟩⟩
  · simp [execute, hmode]
  · simp [execute, hmode]
  · simp at hv
  · simp [execute, hmode]

/-- Edge mode with no mesh active object: cancelled. -/
theorem execute_not_mesh (props : TapeMeasureProperties) (ctx : TapeContext)
    (hmode : current_mode ctx.select_mode = "EDGE") (hmesh : ctx.activeIsMesh = false) :
    execute props ctx =
      (reset_on_mode_change props "EDGE",
        OpStatus.cancelled "Active object is not a mesh") := by
  obtain ⟨sm, sv, mesh, se, us⟩ := ctx
  dsimp only at hmode hmesh ⊢
  subst hmesh
  simp [execute, hmode]

/-- Edge mode, exactly one selected edge: its length is measured,
converted, stored. -/
theorem execute_edge_single (props : TapeMeasureProperties) (ctx : TapeContext)
    (hmode : current_mode ctx.select_mode = "EDGE") (hmesh : ctx.activeIsMesh = true)
    (edge : BEdge) (he : ctx.selected_edges = [edge]) :
    execute props ctx =
      ({ reset_on_mode_change props "EDGE" with
          result := Display.length (convert_distance (calc_length edge) ctx.unit_settings)
            (get_unit_suffix ctx.unit_settings) },
        OpStatus.finished) := by
  obtain ⟨sm, sv, mesh, se, us⟩ := ctx
  dsimp only at hmode hmesh he ⊢
  subst hmesh
  subst he
  simp [execute, hmode]

/-- Edge mode, two or more contiguous edges: the sum of the raw edge
lengths is converted once and stored. -/
theorem execute_edge_sum (props : TapeMeasureProperties) (ctx : TapeContext)
    (hmode : current_mode ctx.select_mode = "EDGE") (hmesh : ctx.activeIsMesh = true)
    (hlen : 1 < ctx.selected_edges.length)
    (hcontig : is_contiguous ctx.selected_edges = some true) :
    execute props ctx =
      ({ reset_on_mode_change props "EDGE" with
          result := Display.length
            (convert_distance ((ctx.selected_edges.map calc_length).sum) ctx.unit_settings)
            (get_unit_suffix ctx.unit_settings) },
        OpStatus.finished) := by
  obtain ⟨sm, sv, mesh, se, us⟩ := ctx
  dsimp only at hmode hmesh hlen hcontig ⊢
  subst hmesh
  rcases se with _ | ⟨a, _ | ⟨b, t⟩⟩
  · simp at hlen
  · simp at hlen
  · have hlt : 1 < (a :: b :: t).length := by
      simp only [List.length_cons]
      omega
    simp [execute, hmode, hcontig, hlt]

/-- Edge mode, two or more non-contiguous edges: cancelled with the
contiguity message; nothing is summed. -/
theorem execute_edge_noncontig (props : TapeMeasureProperties) (ctx : TapeContext)
    (hmode : current_mode ctx.select_mode = "EDGE") (hmesh : ctx.activeIsMesh = true)
    (hlen : 1 < ctx.selected_edges.length)
    (hcontig : is_contiguous ctx.selected_edges = some false) :
    execute props ctx =
      (reset_on_mode_change props "EDGE",
        OpStatus.cancelled "Invalid selection: Edges must form a contiguous group") := by
  obtain ⟨sm, sv, mesh, se, us⟩ := ctx
  dsimp only at hmode hmesh hlen hcontig ⊢
  subst hmesh
  rcases se with _ | ⟨a, _ | ⟨b, t⟩⟩
  · simp at hlen
  · simp at hlen
  · have hlt : 1 < (a :: b :: t).length := by
      simp only [List.length_cons]
      omega
    simp [execute, hmode, hcontig, hlt]

/-- Edge mode, no selected edges: cancelled with the select-an-edge
message (is_contiguous is never consulted). -/
theorem execute_edge_empty (props : TapeMeasureProperties) (ctx : TapeContext)
    (hmode : current_mode ctx.select_mode = "EDGE") (hmesh : ctx.activeIsMesh = true)
    (he : ctx.selected_edges = []) :
    execute props ctx =
      (reset_on_mode_change props "EDGE",
        OpStatus.cancelled "Invalid selection: Select a single edge or contiguous edge group") := by
  obtain ⟨sm, sv, mesh, se, us⟩ := ctx
  dsimp only at hmode hmesh he ⊢
  subst hmesh
  subst he
  simp [execute, hmode]

/-- Neither vertex nor edge mode: cancelled with the mode message. -/
theorem execute_bad_mode (props : TapeMeasureProperties) (ctx : TapeContext)
    (hmode : current_mode ctx.select_mode = "NONE") :
    execute props ctx =
      (reset_on_mode_change props "NONE",
        OpStatus.cancelled "Invalid selection mode: Use Vertex or Edge mode") := by
  obtain ⟨sm, sv, mesh, se, us⟩ := ctx
  dsimp only at hmode ⊢
  simp [execute, hmode]

end TapeMeasureOperator

namespace TapeMeasureOperator

/-- Every run of the tape-measure operator either finishes or cancels
with a reported message, in which case the stored properties are
exactly the mode-reset ones; in particular the IndexError branch of
is_contiguous (empty edge list) is never reached. -/
theorem execute_outcome (props : TapeMeasureProperties) (ctx : TapeContext) :
    ((execute props ctx).2 = OpStatus.finished) ∨
      (∃ msg, execute props ctx =
        (reset_on_mode_change props (current_mode ctx.select_mode), OpStatus.cancelled msg)) := by
  obtain ⟨⟨v, e, f⟩, sv, mesh, se, us⟩ := ctx
  dsimp only
  cases v
  · cases e
    · right
      exact ⟨"Invalid selection mode: Use Vertex or Edge mode", by simp [execute, current_mode]⟩
    · cases mesh
      · right
        exact ⟨"Active object is not a mesh", by simp [execute, current_mode]⟩
      · rcases se with _ | ⟨a, _ | ⟨b, t⟩⟩
        · right
          exact ⟨"Invalid selection: Select a single edge or contiguous edge group",
            by simp [execute, current_mode]⟩
        · left
          simp [execute, current_mode]
        · have hlt : 1 < (a :: b :: t).length := by
            simp only [List.length_cons]
            omega
          rcases hic : is_contiguous (a :: b :: t) with _ | bb
          · simp [is_contiguous] at hic
          · cases bb
            · right
              exact ⟨"Invalid selection: Edges must form a contiguous group",
                by simp [execute, current_mode, hic, hlt]⟩
            · left
              simp [execute, current_mode, hic, hlt]
  · rcases sv with _ | ⟨p1, _ | ⟨p2, _ | ⟨p3, t⟩⟩⟩
    · right
      exact ⟨"Invalid selection: Select exactly two vertices", by simp [execute, current_mode]⟩
    · right
      exact ⟨"Invalid selection: Select exactly two vertices", by simp [execute, current_mode]⟩
    · left
      simp [execute, current_mode]
    · right
      exact ⟨"Invalid selection: Select exactly two vertices", by simp [execute, current_mode]⟩

end TapeMeasureOperator

namespace AngleMeasureOperator

/-- Angle operator with no mesh active object: cancelled, properties
untouched. -/
theorem execute_angle_not_mesh (props : TapeMeasureProperties) (ctx : AngleContext)
    (hmesh : ctx.activeIsMesh = false) :
    execute props ctx = (props, OpStatus.cancelled "Active object is not a mesh") := by
  obtain ⟨sm, mesh, se⟩ := ctx
  dsimp only at hmesh ⊢
  subst hmesh
  simp [execute]

/-- Angle operator with a selected-edge count other than two:
cancelled, properties untouched. -/
theorem execute_bad_count (props : TapeMeasureProperties) (ctx : AngleContext)
    (hmesh : ctx.activeIsMesh = true) (hlen : ctx.selected_edges.length ≠ 2) :
    execute props ctx =
      (props, OpStatus.cancelled "Invalid selection: Select exactly two edges") := by
  obtain ⟨sm, mesh, se⟩ := ctx
  dsimp only at hmesh hlen ⊢
  subst hmesh
  rcases se with _ | ⟨a, _ | ⟨b, _ | ⟨c, t⟩⟩⟩
  · simp [execute]
  · simp [execute]
  · simp at hlen
  · simp [execute]

/-- Angle operator on two edges whose angle computes: the angle pair is
stored and the operator finishes. -/
theorem execute_pair_some (props : TapeMeasureProperties) (ctx : AngleContext)
    (hmesh : ctx.activeIsMesh = true) (e1 e2 : BEdge)
    (he : ctx.selected_edges = [e1, e2]) (ai ao : ℝ)
    (hangle : calculate_angle e1 e2 = some (ai, ao)) :
    execute props ctx =
      ({ props with result := Display.anglePair ai ao }, OpStatus.finished) := by
  obtain ⟨sm, mesh, se⟩ := ctx
  dsimp only at hmesh he ⊢
  subst hmesh
  subst he
  simp [execute, hangle]

/-- Angle operator on two edges whose angle computation raises: the
exception escapes and the run crashes with properties untouched. -/
theorem execute_pair_none (props : TapeMeasureProperties) (ctx : AngleContext)
    (hmesh : ctx.activeIsMesh = true) (e1 e2 : BEdge)
    (he : ctx.selected_edges = [e1, e2])
    (hangle : calculate_angle e1 e2 = none) :
    execute props ctx = (props, OpStatus.crashed) := by
  obtain ⟨sm, mesh, se⟩ := ctx
  dsimp only at hmesh he ⊢
  subst hmesh
  subst he
  simp [execute, hangle]

/-- The angle operator never reads the selection-mode toggles. -/
theorem execute_mode_independent (props : TapeMeasureProperties)
    (sm sm' : Bool × Bool × Bool) (mesh : Bool) (se : List BEdge) :
    execute props ⟨sm, mesh, se⟩ = execute props ⟨sm', mesh, se⟩ := rfl

end AngleMeasureOperator

namespace DistanceFromCursorOperator

/-- Cursor operator with exactly one selected vertex: the absolute
axis-component difference is converted and stored with the axis tag. -/
theorem execute_single (props : TapeMeasureProperties) (ctx : CursorContext)
    (v : Point3) (hv : ctx.selected_verts = [v]) :
    execute props ctx =
      ({ props with result := (Display.axisDist ctx.axis
          (convert_distance |coordOf v ctx.axis - coordOf ctx.cursor_location ctx.axis|
            ctx.unit_settings)
          (get_unit_suffix ctx.unit_settings)) },
        OpStatus.finished) := by
  obtain ⟨ax, sv, cur, us⟩ := ctx
  dsimp only at hv ⊢
  subst hv
  simp [execute]

/-- Cursor operator with any other selected-vertex count: cancelled,
properties untouched. -/
theorem execute_bad_count_cursor (props : TapeMeasureProperties) (ctx : CursorContext)
    (hv : ctx.selected_verts.length ≠ 1) :
    execute props ctx =
      (props, OpStatus.cancelled "Invalid selection: Select exactly one vertex") := by
  obtain ⟨ax, sv, cur, us⟩ := ctx
  dsimp only at hv ⊢
  rcases sv with _ | ⟨a, _ | ⟨b, t⟩⟩
  · simp [execute]
  · simp at hv
  · simp [execute]

end DistanceFromCursorOperator

/-- The witness edge WD0 is degenerate: its direction vector is zero. -/
theorem WD0_degenerate : vlen (AngleMeasureOperator.edge_vec WD0) = 0 := by
  have h : AngleMeasureOperator.edge_vec WD0 = ⟨0, 0, 0⟩ := by
    simp [AngleMeasureOperator.edge_vec, vsub, WD0, SP0]
  rw [h]
  exact (vlen_eq_zero_iff _).mpr ⟨rfl, rfl, rfl⟩

/-- The witness edge SE1 is non-degenerate. -/
theorem SE1_nondegenerate : vlen (AngleMeasureOperator.edge_vec SE1) ≠ 0 := by
  have h : AngleMeasureOperator.edge_vec SE1 = ⟨1, 0, 0⟩ := by
    simp [AngleMeasureOperator.edge_vec, vsub, SE1, SP0, SP1]
  rw [h, Ne, vlen_eq_zero_iff]
  simp

/-- The witness edge SE2 is non-degenerate. -/
theorem SE2_nondegenerate : vlen (AngleMeasureOperator.edge_vec SE2) ≠ 0 := by
  have h : AngleMeasureOperator.edge_vec SE2 = ⟨0, 1, 0⟩ := by
    simp [AngleMeasureOperator.edge_vec, vsub, SE2, SP1, SP2]
  rw [h, Ne, vlen_eq_zero_iff]
  simp

/-- For any returned angle pair, the second component is the first
subtracted from 360, so the pair sums to 360. -/
theorem calculate_angle_pair_shape (e1 e2 : BEdge) (ai ao : ℝ)
    (h : AngleMeasureOperator.calculate_angle e1 e2 = some (ai, ao)) :
    ao = 360 - ai ∧ ai + ao = 360 := by
  simp only [AngleMeasureOperator.calculate_angle] at h
  rcases hv : vangle (AngleMeasureOperator.edge_vec e1) (AngleMeasureOperator.edge_vec e2)
    with _ | a
  · rw [hv] at h
    simp at h
  · rw [hv] at h
    simp only [Option.some_inj, Prod.mk.injEq] at h
    obtain ⟨h1, h2⟩ := h
    constructor
    · rw [← h1, ← h2]
    · rw [← h1, ← h2]
      ring

/-- C1: for every non-empty edge list (with distinct edge identities),
is_contiguous answers true exactly when the edges form a single
connected component of the shared-endpoint adjacency relation; in
particular it answers true on any single-edge list and on any chain
whose consecutive edges share an endpoint, and false on two edges
sharing no endpoint. -/
theorem claim_C1_is_contiguous_connected :
    (∀ edges : List BEdge, edges ≠ [] → (edges.map BEdge.id).Nodup →
      (TapeMeasureOperator.is_contiguous edges = some true ↔ EdgeConnected edges)) ∧
    (∀ e : BEdge, TapeMeasureOperator.is_contiguous [e] = some true) ∧
    (∀ edges : List BEdge, edges ≠ [] → (edges.map BEdge.id).Nodup →
      (∀ (i : ℕ) (h1 : i + 1 < edges.length),
        TapeMeasureOperator.sharesVert (edges.get ⟨i, Nat.lt_of_succ_lt h1⟩)
          (edges.get ⟨i + 1, h1⟩) = true) →
      TapeMeasureOperator.is_contiguous edges = some true) ∧
    (∀ e1 e2 : BEdge, e1.id ≠ e2.id → TapeMeasureOperator.sharesVert e1 e2 = false →
      TapeMeasureOperator.is_contiguous [e1, e2] = some false) :=
  ⟨TapeMeasureOperator.is_contiguous_iff_connected,
    TapeMeasureOperator.is_contiguous_single,
    TapeMeasureOperator.is_contiguous_chain,
    TapeMeasureOperator.is_contiguous_disjoint_pair⟩

/-- Witness for C1 at concrete inputs: the disjoint pair SE1/SE3 is
reported non-contiguous, and the iff holds at the adjacent pair
SE1/SE2. -/
theorem claim_C1_witness :
    TapeMeasureOperator.is_contiguous [SE1, SE3] = some false ∧
      (TapeMeasureOperator.is_contiguous [SE1, SE2] = some true ↔
        EdgeConnected [SE1, SE2]) :=
  ⟨claim_C1_is_contiguous_connected.2.2.2 SE1 SE3 (by decide) (by decide),
    claim_C1_is_contiguous_connected.1 [SE1, SE2] (by simp) (by decide)⟩

/-- C2: in edge selection mode (active object a mesh), one selected
edge yields its converted length; two or more edges yield the converted
sum of the raw edge lengths exactly when is_contiguous confirms the
set, a non-contiguous multi-edge set is always cancelled with the
topology message and never summed, and an empty edge selection is
cancelled with the selection message. -/
theorem claim_C2_edge_mode_dispatch (props : TapeMeasureProperties)
    (ctx : TapeMeasureOperator.TapeContext)
    (hmode : TapeMeasureOperator.current_mode ctx.select_mode = "EDGE")
    (hmesh : ctx.activeIsMesh = true) :
    (∀ e : BEdge, ctx.selected_edges = [e] →
      TapeMeasureOperator.execute props ctx =
        ({ TapeMeasureOperator.reset_on_mode_change props "EDGE" with
            result := Display.length (convert_distance (calc_length e) ctx.unit_settings)
              (get_unit_suffix ctx.unit_settings) }, OpStatus.finished)) ∧
    (1 < ctx.selected_edges.length →
      TapeMeasureOperator.is_contiguous ctx.selected_edges = some true →
      TapeMeasureOperator.execute props ctx =
        ({ TapeMeasureOperator.reset_on_mode_change props "EDGE" with
            result := Display.length
              (convert_distance ((ctx.selected_edges.map calc_length).sum) ctx.unit_settings)
              (get_unit_suffix ctx.unit_settings) }, OpStatus.finished)) ∧
    (1 < ctx.selected_edges.length →
      TapeMeasureOperator.is_contiguous ctx.selected_edges = some false →
      TapeMeasureOperator.execute props ctx =
        (TapeMeasureOperator.reset_on_mode_change props "EDGE",
          OpStatus.cancelled "Invalid selection: Edges must form a contiguous group")) ∧
    (ctx.selected_edges = [] →
      TapeMeasureOperator.execute props ctx =
        (TapeMeasureOperator.reset_on_mode_change props "EDGE",
          OpStatus.cancelled "Invalid selection: Select a single edge or contiguous edge group")) :=
  ⟨fun e he => TapeMeasureOperator.execute_edge_single props ctx hmode hmesh e he,
    fun hl hc => TapeMeasureOperator.execute_edge_sum props ctx hmode hmesh hl hc,
    fun hl hc => TapeMeasureOperator.execute_edge_noncontig props ctx hmode hmesh hl hc,
    fun he => TapeMeasureOperator.execute_edge_empty props ctx hmode hmesh he⟩

/-- Witness for C2: the contiguous pair SE1/SE2 in edge mode finishes
with the converted sum of the two raw lengths. -/
theorem claim_C2_witness :
    TapeMeasureOperator.execute WPropsE WCtxEdgePair =
      ({ TapeMeasureOperator.reset_on_mode_change WPropsE "EDGE" with
          result := Display.length
            (convert_distance ((WCtxEdgePair.selected_edges.map calc_length).sum)
              WCtxEdgePair.unit_settings)
            (get_unit_suffix WCtxEdgePair.unit_settings) }, OpStatus.finished) :=
  (claim_C2_edge_mode_dispatch WPropsE WCtxEdgePair rfl rfl).2.1 (by decide) (by decide)

/-- C5: in vertex selection mode, exactly two selected points finish
with their converted Euclidean distance; the distance is symmetric and
vanishes exactly on coincident points; any other selected-point count
is cancelled with the two-vertices message. -/
theorem claim_C5_vertex_mode (props : TapeMeasureProperties)
    (ctx : TapeMeasureOperator.TapeContext)
    (hmode : TapeMeasureOperator.current_mode ctx.select_mode = "VERTEX") :
    (∀ v1 v2 : Point3, ctx.selected_verts = [v1, v2] →
      TapeMeasureOperator.execute props ctx =
        ({ TapeMeasureOperator.reset_on_mode_change props "VERTEX" with
            result := Display.length (convert_distance (vlen (vsub v1 v2)) ctx.unit_settings)
              (get_unit_suffix ctx.unit_settings) }, OpStatus.finished)) ∧
    (ctx.selected_verts.length ≠ 2 →
      TapeMeasureOperator.execute props ctx =
        (TapeMeasureOperator.reset_on_mode_change props "VERTEX",
          OpStatus.cancelled "Invalid selection: Select exactly two vertices")) ∧
    (∀ a b : Point3, vlen (vsub a b) = vlen (vsub b a)) ∧
    (∀ a b : Point3, vlen (vsub a b) = 0 ↔ a = b) :=
  ⟨fun v1 v2 hv => TapeMeasureOperator.execute_vertex_pair props ctx hmode v1 v2 hv,
    fun hv => TapeMeasureOperator.execute_vertex_bad props ctx hmode hv,
    vlen_vsub_symm,
    vlen_vsub_eq_zero_iff⟩

/-- Witness for C5: the pair SP0/SP1 in vertex mode finishes with the
converted distance. -/
theorem claim_C5_witness :
    TapeMeasureOperator.execute WPropsV WCtxVertexPair =
      ({ TapeMeasureOperator.reset_on_mode_change WPropsV "VERTEX" with
          result := Display.length
            (convert_distance (vlen (vsub SP0 SP1)) WCtxVertexPair.unit_settings)
            (get_unit_suffix WCtxVertexPair.unit_settings) }, OpStatus.finished) :=
  (claim_C5_vertex_mode WPropsV WCtxVertexPair rfl).1 SP0 SP1 rfl

/-- C6: unit conversion is the identity under Metric, multiplies by
exactly 3.28084 under Imperial, the unit symbols are m and ft, and in
the summed-length path the conversion is applied exactly once, to the
raw sum of edge lengths at display time. -/
theorem claim_C6_unit_conversion :
    (∀ x : ℝ, convert_distance x UnitSystem.metric = x) ∧
    (∀ x : ℝ, convert_distance x UnitSystem.imperial = x * 3.28084) ∧
    get_unit_suffix UnitSystem.metric = "m" ∧
    get_unit_suffix UnitSystem.imperial = "ft" ∧
    (∀ (props : TapeMeasureProperties) (ctx : TapeMeasureOperator.TapeContext),
      TapeMeasureOperator.current_mode ctx.select_mode = "EDGE" →
      ctx.activeIsMesh = true →
      1 < ctx.selected_edges.length →
      TapeMeasureOperator.is_contiguous ctx.selected_edges = some true →
      TapeMeasureOperator.execute props ctx =
        ({ TapeMeasureOperator.reset_on_mode_change props "EDGE" with
            result := Display.length
              (convert_distance ((ctx.selected_edges.map calc_length).sum) ctx.unit_settings)
              (get_unit_suffix ctx.unit_settings) }, OpStatus.finished)) := by
  refine ⟨?_, ?_, rfl, rfl, ?_⟩
  · intro x
    simp [convert_distance]
  · intro x
    simp [convert_distance]
  · intro props ctx hmode hmesh hl hc
    exact TapeMeasureOperator.execute_edge_sum props ctx hmode hmesh hl hc

/-- Witness for C6: the summed-length conjunct at the concrete
contiguous pair. -/
theorem claim_C6_witness :
    TapeMeasureOperator.execute WPropsE WCtxEdgePair =
      ({ TapeMeasureOperator.reset_on_mode_change WPropsE "EDGE" with
          result := Display.length
            (convert_distance ((WCtxEdgePair.selected_edges.map calc_length).sum)
              WCtxEdgePair.unit_settings)
            (get_unit_suffix WCtxEdgePair.unit_settings) }, OpStatus.finished) :=
  claim_C6_unit_conversion.2.2.2.2 WPropsE WCtxEdgePair rfl rfl (by decide) (by decide)

/-- C7: axis-distance measurement cancels unless exactly one vertex is
selected, and with one selected vertex finishes with the axis tag, the
converted absolute difference of the configured axis component between
the vertex and the cursor, and the unit symbol. -/
theorem claim_C7_axis_distance :
    (∀ (props : TapeMeasureProperties) (ctx : DistanceFromCursorOperator.CursorContext),
      ctx.selected_verts.length ≠ 1 →
      DistanceFromCursorOperator.execute props ctx =
        (props, OpStatus.cancelled "Invalid selection: Select exactly one vertex")) ∧
    (∀ (props : TapeMeasureProperties) (ctx : DistanceFromCursorOperator.CursorContext)
      (v : Point3), ctx.selected_verts = [v] →
      DistanceFromCursorOperator.execute props ctx =
        ({ props with result := (Display.axisDist ctx.axis
            (convert_distance |coordOf v ctx.axis - coordOf ctx.cursor_location ctx.axis|
              ctx.unit_settings)
            (get_unit_suffix ctx.unit_settings)) }, OpStatus.finished)) :=
  ⟨fun props ctx hv => DistanceFromCursorOperator.execute_bad_count_cursor props ctx hv,
    fun props ctx v hv => DistanceFromCursorOperator.execute_single props ctx v hv⟩

/-- Witness for C7: vertex at x = 5, cursor at the origin, X axis. -/
theorem claim_C7_witness :
    DistanceFromCursorOperator.execute WPropsV WCtxCursor =
      ({ WPropsV with result := (Display.axisDist WCtxCursor.axis
          (convert_distance
            |coordOf WP5 WCtxCursor.axis - coordOf WCtxCursor.cursor_location WCtxCursor.axis|
            WCtxCursor.unit_settings)
          (get_unit_suffix WCtxCursor.unit_settings)) }, OpStatus.finished) :=
  claim_C7_axis_distance.2 WPropsV WCtxCursor WP5 rfl

/-- C9: the tape-measure operator never reaches the IndexError of
is_contiguous: every run finishes or cancels with a message, while
is_contiguous itself is undefined (raises) on an empty list. -/
theorem claim_C9_no_empty_contiguity_call :
    (∀ (props : TapeMeasureProperties) (ctx : TapeMeasureOperator.TapeContext),
      (TapeMeasureOperator.execute props ctx).2 = OpStatus.finished ∨
        ∃ msg, (TapeMeasureOperator.execute props ctx).2 = OpStatus.cancelled msg) ∧
    TapeMeasureOperator.is_contiguous [] = none := by
  constructor
  · intro props ctx
    rcases TapeMeasureOperator.execute_outcome props ctx with h | ⟨msg, h⟩
    · exact Or.inl h
    · exact Or.inr ⟨msg, by rw [h]⟩
  · rfl

/-- C10: the classifier gives vertex mode precedence over edge mode,
classifies neither-toggle as NONE, and the tape-measure operator then
cancels with the invalid-mode message. -/
theorem claim_C10_mode_classifier :
    (∀ b f : Bool, TapeMeasureOperator.current_mode (true, b, f) = "VERTEX") ∧
    (∀ f : Bool, TapeMeasureOperator.current_mode (false, false, f) = "NONE") ∧
    (∀ (props : TapeMeasureProperties) (ctx : TapeMeasureOperator.TapeContext),
      ctx.select_mode.1 = false → ctx.select_mode.2.1 = false →
      TapeMeasureOperator.execute props ctx =
        (TapeMeasureOperator.reset_on_mode_change props "NONE",
          OpStatus.cancelled "Invalid selection mode: Use Vertex or Edge mode")) := by
  refine ⟨fun b f => rfl, fun f => rfl, ?_⟩
  intro props ctx h1 h2
  have hmode : TapeMeasureOperator.current_mode ctx.select_mode = "NONE" := by
    unfold TapeMeasureOperator.current_mode
    rw [h1, h2]
    simp
  exact TapeMeasureOperator.execute_bad_mode props ctx hmode

/-- Witness for C10: face-only select mode cancels with the
invalid-mode message. -/
theorem claim_C10_witness :
    TapeMeasureOperator.execute WPropsV WCtxFace =
      (TapeMeasureOperator.reset_on_mode_change WPropsV "NONE",
        OpStatus.cancelled "Invalid selection mode: Use Vertex or Edge mode") :=
  claim_C10_mode_classifier.2.2 WPropsV WCtxFace rfl rfl

/-- C3 counterexample: with a zero-length first edge selected together
with a normal edge, the angle operator does not return any error value
to the caller; the ValueError raised inside the host angle routine
escapes execute uncaught (the run crashes), refuting the claim that a
ComputationError value is returned instead of a propagating
exception. -/
theorem claim_C3_counterexample :
    AngleMeasureOperator.execute WPropsE WCtxAngleDegenerate = (WPropsE, OpStatus.crashed) :=
  AngleMeasureOperator.execute_pair_none WPropsE WCtxAngleDegenerate rfl WD0 SE1 rfl
    (AngleMeasureOperator.calculate_angle_eq_none WD0 SE1 (Or.inl WD0_degenerate))

/-- C3 (amended): when either selected edge has zero length, the angle
measurement does not return an error value; the host ValueError
propagates uncaught across the operator boundary (modelled as a crashed
outcome), with the stored properties untouched and no NaN angle result
produced. -/
theorem claim_C3_degenerate_angle_crashes (props : TapeMeasureProperties)
    (ctx : AngleMeasureOperator.AngleContext) (hmesh : ctx.activeIsMesh = true)
    (e1 e2 : BEdge) (he : ctx.selected_edges = [e1, e2])
    (hdeg : vlen (AngleMeasureOperator.edge_vec e1) = 0 ∨
      vlen (AngleMeasureOperator.edge_vec e2) = 0) :
    AngleMeasureOperator.execute props ctx = (props, OpStatus.crashed) :=
  AngleMeasureOperator.execute_pair_none props ctx hmesh e1 e2 he
    (AngleMeasureOperator.calculate_angle_eq_none e1 e2 hdeg)

/-- Witness for the amended C3 at the concrete degenerate pair. -/
theorem claim_C3_witness :
    AngleMeasureOperator.execute WPropsV WCtxAngleDegenerate = (WPropsV, OpStatus.crashed) :=
  claim_C3_degenerate_angle_crashes WPropsV WCtxAngleDegenerate rfl WD0 SE1 rfl
    (Or.inl WD0_degenerate)

/-- C4: the angle operator requires exactly two selected edges and
ignores the global selection-mode toggles; on non-degenerate edges the
angle computes, every returned pair has the shape (inside, 360 minus
inside) summing to 360, a computed pair is stored on a finished run,
and the computation is symmetric under swapping the two edges. -/
theorem claim_C4_angle_pair :
    (∀ (props : TapeMeasureProperties) (ctx : AngleMeasureOperator.AngleContext),
      ctx.activeIsMesh = true → ctx.selected_edges.length ≠ 2 →
      AngleMeasureOperator.execute props ctx =
        (props, OpStatus.cancelled "Invalid selection: Select exactly two edges")) ∧
    (∀ (props : TapeMeasureProperties) (sm sm' : Bool × Bool × Bool) (mesh : Bool)
      (se : List BEdge),
      AngleMeasureOperator.execute props ⟨sm, mesh, se⟩ =
        AngleMeasureOperator.execute props ⟨sm', mesh, se⟩) ∧
    (∀ e1 e2 : BEdge, vlen (AngleMeasureOperator.edge_vec e1) ≠ 0 →
      vlen (AngleMeasureOperator.edge_vec e2) ≠ 0 →
      (AngleMeasureOperator.calculate_angle e1 e2).isSome = true) ∧
    (∀ (e1 e2 : BEdge) (ai ao : ℝ),
      AngleMeasureOperator.calculate_angle e1 e2 = some (ai, ao) →
      ao = 360 - ai ∧ ai + ao = 360) ∧
    (∀ (props : TapeMeasureProperties) (ctx : AngleMeasureOperator.AngleContext)
      (e1 e2 : BEdge) (ai ao : ℝ),
      ctx.activeIsMesh = true → ctx.selected_edges = [e1, e2] →
      AngleMeasureOperator.calculate_angle e1 e2 = some (ai, ao) →
      AngleMeasureOperator.execute props ctx =
        ({ props with result := Display.anglePair ai ao }, OpStatus.finished)) ∧
    (∀ e1 e2 : BEdge, AngleMeasureOperator.calculate_angle e1 e2 =
      AngleMeasureOperator.calculate_angle e2 e1) := by
  refine ⟨?_, ?_, ?_, ?_, ?_, AngleMeasureOperator.calculate_angle_symm⟩
  · intro props ctx hmesh hlen
    exact AngleMeasureOperator.execute_bad_count props ctx hmesh hlen
  · intro props sm sm' mesh se
    exact AngleMeasureOperator.execute_mode_independent props sm sm' mesh se
  · intro e1 e2 h1 h2
    rw [AngleMeasureOperator.calculate_angle_eq_some e1 e2 h1 h2]
    rfl
  · intro e1 e2 ai ao h
    exact calculate_angle_pair_shape e1 e2 ai ao h
  · intro props ctx e1 e2 ai ao hmesh he hangle
    exact AngleMeasureOperator.execute_pair_some props ctx hmesh e1 e2 he ai ao hangle

/-- Witness for C4 at the concrete non-degenerate pair SE1/SE2: the
operator finishes and stores the computed inside angle together with
its complement to 360. -/
theorem claim_C4_witness :
    AngleMeasureOperator.execute WPropsE WCtxAngle =
      ({ WPropsE with result := (Display.anglePair
          (degrees (Real.arccos
            (dot (AngleMeasureOperator.edge_vec SE1) (AngleMeasureOperator.edge_vec SE2) /
              (vlen (AngleMeasureOperator.edge_vec SE1) *
                vlen (AngleMeasureOperator.edge_vec SE2)))))
          (360 - degrees (Real.arccos
            (dot (AngleMeasureOperator.edge_vec SE1) (AngleMeasureOperator.edge_vec SE2) /
              (vlen (AngleMeasureOperator.edge_vec SE1) *
                vlen (AngleMeasureOperator.edge_vec SE2)))))) }, OpStatus.finished) :=
  claim_C4_angle_pair.2.2.2.2.1 WPropsE WCtxAngle SE1 SE2 _ _ rfl rfl
    (AngleMeasureOperator.calculate_angle_eq_some SE1 SE2 SE1_nondegenerate SE2_nondegenerate)

/-- C8: a cancelled run leaves the stored result unchanged, except that
the tape-measure operator's mode-change reset independently clears it:
on a cancelled tape-measure run the stored result equals the previous
one when the mode did not change and is empty when it did, and
cancelled angle or cursor runs leave the properties exactly as they
were (those operators have no mode tracking). -/
theorem claim_C8_error_frame :
    (∀ (props : TapeMeasureProperties) (ctx : TapeMeasureOperator.TapeContext) (msg : String),
      (TapeMeasureOperator.execute props ctx).2 = OpStatus.cancelled msg →
      (TapeMeasureOperator.execute props ctx).1.result =
        (if props.last_mode = TapeMeasureOperator.current_mode ctx.select_mode
          then props.result else Display.empty)) ∧
    (∀ (props : TapeMeasureProperties) (ctx : AngleMeasureOperator.AngleContext) (msg : String),
      (AngleMeasureOperator.execute props ctx).2 = OpStatus.cancelled msg →
      (AngleMeasureOperator.execute props ctx).1 = props) ∧
    (∀ (props : TapeMeasureProperties) (ctx : DistanceFromCursorOperator.CursorContext)
      (msg : String),
      (DistanceFromCursorOperator.execute props ctx).2 = OpStatus.cancelled msg →
      (DistanceFromCursorOperator.execute props ctx).1 = props) := by
  refine ⟨?_, ?_, ?_⟩
  · intro props ctx msg h
    rcases TapeMeasureOperator.execute_outcome props ctx with hfin | ⟨msg', heq⟩
    · rw [hfin] at h
      simp at h
    · rw [heq]
      unfold TapeMeasureOperator.reset_on_mode_change
      by_cases hlm : props.last_mode = TapeMeasureOperator.current_mode ctx.select_mode
      · rw [if_neg (by simpa using hlm), if_pos hlm]
      · rw [if_pos hlm, if_neg hlm]
  · intro props ctx msg h
    obtain ⟨sm, mesh, se⟩ := ctx
    cases mesh
    · rw [AngleMeasureOperator.execute_angle_not_mesh props ⟨sm, false, se⟩ rfl]
    · rcases se with _ | ⟨a, _ | ⟨b, _ | ⟨c, t⟩⟩⟩
      · rw [AngleMeasureOperator.execute_bad_count props ⟨sm, true, []⟩ rfl (by simp)]
      · rw [AngleMeasureOperator.execute_bad_count props ⟨sm, true, [a]⟩ rfl (by simp)]
      · rcases hca : AngleMeasureOperator.calculate_angle a b with _ | p
        · rw [AngleMeasureOperator.execute_pair_none props ⟨sm, true, [a, b]⟩ rfl a b rfl hca]
            at h
          simp at h
        · rw [AngleMeasureOperator.execute_pair_some props ⟨sm, true, [a, b]⟩ rfl a b rfl
            p.1 p.2 (by rw [hca])] at h
          simp at h
      · rw [AngleMeasureOperator.execute_bad_count props ⟨sm, true, a :: b :: c :: t⟩ rfl
          (by simp)]
  · intro props ctx msg h
    obtain ⟨ax, sv, cur, us⟩ := ctx
    rcases sv with _ | ⟨a, _ | ⟨b, t⟩⟩
    · rw [DistanceFromCursorOperator.execute_bad_count_cursor props ⟨ax, [], cur, us⟩ (by simp)]
    · rw [DistanceFromCursorOperator.execute_single props ⟨ax, [a], cur, us⟩ a rfl] at h
      simp at h
    · rw [DistanceFromCursorOperator.execute_bad_count_cursor props ⟨ax, a :: b :: t, cur, us⟩
        (by simp)]

/-- Witness for C8: an empty vertex selection cancels and the stored
result stays as characterized (here the mode did not change, so it is
untouched). -/
theorem claim_C8_witness :
    (TapeMeasureOperator.execute WPropsV WCtxVertexNone).1.result =
      (if WPropsV.last_mode = TapeMeasureOperator.current_mode WCtxVertexNone.select_mode
        then WPropsV.result else Display.empty) :=
  claim_C8_error_frame.1 WPropsV WCtxVertexNone
    "Invalid selection: Select exactly two vertices" rfl
